import Mathlib

/-!
Shallow embedding of the concurrent transaction scheduler in
tasks/scheduler.go of sei-cosmos, together with proofs about its
execute/validate/retry loop.

Modelling decisions, all driven by the Go source:
- The four status constants become an inductive type.
- A task record mirrors deliverTxTask; the Go response pointer becomes an
  Option (nil pointer = none).
- Tasks are shared by pointer between the full task list and the toExecute
  list; pointers are modelled as positions into the shared task list, and
  in-place mutation as functional update at a position.
- The injected deliverTx function never returns an error in the Go
  signature, so it is a pure function Req to Res.  Consequently the only
  error source inside executeAll is context cancellation, which is
  determinized as a per-round Option value: in a round whose cancel value is
  some e, the errgroup returns e and ProcessAll discards all task state, so
  the partially mutated tasks are unobservable and the round is modelled as
  returning the error directly.  In a round whose cancel value is none, the
  worker pool drains the whole queue, and every task received by a worker
  gets status executed and response deliverTx(request); the post-state does
  not depend on the worker interleaving because deliverTx is a function of
  the request alone.  With zero effective workers nothing executes (the
  buffered channel lets the producer finish), which the Go normalization
  makes possible only for an empty round.
- Go's for-loop in ProcessAll has no structural bound, so the loop takes an
  explicit fuel budget and reports exhaustion as a distinguished outcome.
-/

namespace SeiScheduler

/-- Task status from scheduler.go: the constants statusPending,
statusExecuted, statusAborted, statusValidated. -/
inductive Status where
  | pending
  | executed
  | aborted
  | validated
deriving DecidableEq, Repr

/-- The deliverTxTask record from scheduler.go: scheduling metadata plus the
request payload and the response pointer (nil pointer rendered as none). -/
structure deliverTxTask (Req Res : Type) where
  status : Status
  index : Nat
  incarnation : Nat
  request : Req
  response : Option Res
deriving DecidableEq, Repr

/-- Auxiliary recursion for toTasks carrying the next index, matching the
range loop over the requests. -/
def toTasksFrom {Req Res : Type} : Nat → List Req → List (deliverTxTask Req Res)
  | _, [] => []
  | idx, r :: rs =>
    { status := Status.pending, index := idx, incarnation := 0,
      request := r, response := none } :: toTasksFrom (idx + 1) rs

/-- toTasks from scheduler.go: one task per request, all pending,
incarnation 0, index equal to the position in the batch, response absent. -/
def toTasks {Req Res : Type} (reqs : List Req) : List (deliverTxTask Req Res) :=
  toTasksFrom 0 reqs

/-- collectResponses from scheduler.go dereferences every task's response
pointer; a nil pointer makes the whole collection fail (the dereference of a
nil pointer is modelled as none for the whole list). -/
def collectResponses {Req Res : Type} : List (deliverTxTask Req Res) → Option (List Res)
  | [] => some []
  | t :: ts =>
    match t.response, collectResponses ts with
    | some r, some rs => some (r :: rs)
    | _, _ => none

/-- The per-task effect of the worker body in executeAll: call deliverTx on
the task's request, set status executed and store the response. -/
def execTask {Req Res : Type} (f : Req → Res) (t : deliverTxTask Req Res) :
    deliverTxTask Req Res :=
  { t with status := Status.executed, response := some (f t.request) }

/-- Worker-count normalization at the top of executeAll: a configured value
below 1 means one worker per task of the round. -/
def effectiveWorkers (workers : Int) (numTasks : Nat) : Nat :=
  if workers < 1 then numTasks else workers.toNat

/-- Functional update of the shared task list at one position, modelling an
in-place write through a task pointer. -/
def modifyAt {α : Type} : List α → Nat → (α → α) → List α
  | [], _, _ => []
  | a :: as, 0, g => g a :: as
  | a :: as, n + 1, g => a :: modifyAt as n g

/-- executeAll from scheduler.go.  toExecute holds the positions (pointers)
of this round's tasks inside the shared task list.  A cancelled round
surfaces its error; otherwise every task of the round is executed exactly
once by some worker, provided at least one worker exists. -/
def executeAll {Req Res E : Type} (cancel : Option E) (workers : Int) (f : Req → Res)
    (tasks : List (deliverTxTask Req Res)) (toExecute : List Nat) :
    Except E (List (deliverTxTask Req Res)) :=
  match cancel with
  | some e => Except.error e
  | none =>
    if effectiveWorkers workers toExecute.length = 0 then Except.ok tasks
    else Except.ok (toExecute.foldl (fun ts i => modifyAt ts i (execTask f)) tasks)

/-- The single pass of validateAll, carrying the position of the head task:
an aborted task is reported (by position) for re-execution and left
untouched; every other task becomes validated. -/
def validateAllAux {Req Res : Type} : Nat → List (deliverTxTask Req Res) →
    List (deliverTxTask Req Res) × List Nat
  | _, [] => ([], [])
  | i, t :: ts =>
    let r := validateAllAux (i + 1) ts
    if t.status = Status.aborted then (t :: r.1, i :: r.2)
    else ({ t with status := Status.validated } :: r.1, r.2)

/-- validateAll from scheduler.go: scans the whole task list, returns the
tasks needing re-execution, and always returns a nil error. -/
def validateAll {Req Res E : Type} (tasks : List (deliverTxTask Req Res)) :
    Except E (List (deliverTxTask Req Res) × List Nat) :=
  Except.ok (validateAllAux 0 tasks)

/-- Body of the retry loop in ProcessAll: increment the incarnation and reset
the status to pending.  The source mutates nothing else; in particular the
response field is left in place. -/
def retryStep {Req Res : Type} (t : deliverTxTask Req Res) : deliverTxTask Req Res :=
  { t with incarnation := t.incarnation + 1, status := Status.pending }

/-- The retry loop of ProcessAll applied to the flagged positions. -/
def retryFlagged {Req Res : Type} (tasks : List (deliverTxTask Req Res))
    (flagged : List Nat) : List (deliverTxTask Req Res) :=
  flagged.foldl (fun ts i => modifyAt ts i retryStep) tasks

/-- Consecutive positions s, s+1, ..., s+n-1. -/
def positionsFrom : Nat → Nat → List Nat
  | _, 0 => []
  | s, n + 1 => s :: positionsFrom (s + 1) n

/-- The initial toExecute of ProcessAll: every position of the task list. -/
def initialPositions (n : Nat) : List Nat :=
  positionsFrom 0 n

/-- Outcome of the ProcessAll loop on the shared task list. -/
inductive LoopResult (E Req Res : Type) where
  | ok (tasks : List (deliverTxTask Req Res))
  | error (e : E)
  | outOfFuel
deriving DecidableEq, Repr

/-- Observable result of ProcessAll: the ordered responses, a propagated
error, a nil-response dereference inside collectResponses, or exhaustion of
the loop's fuel budget. -/
inductive SchedResult (E Res : Type) where
  | ok (resps : List Res)
  | error (e : E)
  | crash
  | outOfFuel
deriving DecidableEq, Repr

/-- Whether a scheduler result is the nil-dereference outcome. -/
def SchedResult.isCrash {E Res : Type} : SchedResult E Res → Bool
  | SchedResult.crash => true
  | _ => false

/-- The for-loop of ProcessAll: while toExecute is nonempty, run executeAll
on this round's tasks, validateAll on ALL tasks, and the retry step on the
flagged tasks, which become the next round's toExecute.  cancels gives the
determinized cancellation outcome of each round's executeAll. -/
def processAllLoop {Req Res E : Type} (workers : Int) (f : Req → Res)
    (cancels : Nat → Option E) :
    Nat → Nat → List (deliverTxTask Req Res) → List Nat → LoopResult E Req Res
  | 0, _, tasks, toExecute =>
    if toExecute.isEmpty then LoopResult.ok tasks else LoopResult.outOfFuel
  | fuel + 1, round, tasks, toExecute =>
    if toExecute.isEmpty then LoopResult.ok tasks
    else
      match executeAll (cancels round) workers f tasks toExecute with
      | Except.error e => LoopResult.error e
      | Except.ok tasks1 =>
        match (validateAll tasks1 : Except E _) with
        | Except.error e => LoopResult.error e
        | Except.ok (tasks2, flagged) =>
          processAllLoop workers f cancels fuel (round + 1)
            (retryFlagged tasks2 flagged) flagged

/-- ProcessAll from scheduler.go: build the tasks, run the
execute/validate/retry loop starting from the full batch, then collect the
responses in index order. -/
def ProcessAll {Req Res E : Type} (workers : Int) (f : Req → Res)
    (cancels : Nat → Option E) (fuel : Nat) (reqs : List Req) : SchedResult E Res :=
  let tasks : List (deliverTxTask Req Res) := toTasks reqs
  match processAllLoop workers f cancels fuel 0 tasks (initialPositions tasks.length) with
  | LoopResult.ok finalTasks =>
    match collectResponses finalTasks with
    | some rs => SchedResult.ok rs
    | none => SchedResult.crash
  | LoopResult.error e => SchedResult.error e
  | LoopResult.outOfFuel => SchedResult.outOfFuel

/-- The task list exactly as validateAll leaves it: non-aborted tasks become
validated, aborted tasks are untouched. -/
def validatedView {Req Res : Type} (ts : List (deliverTxTask Req Res)) :
    List (deliverTxTask Req Res) :=
  ts.map fun t =>
    if t.status = Status.aborted then t else { t with status := Status.validated }

/-- Positions (counted from offset s) of the aborted tasks, in input order:
the re-execution list returned by validateAll. -/
def abortedPositionsFrom {Req Res : Type} : Nat → List (deliverTxTask Req Res) → List Nat
  | _, [] => []
  | s, t :: ts =>
    if t.status = Status.aborted then s :: abortedPositionsFrom (s + 1) ts
    else abortedPositionsFrom (s + 1) ts

/-! Basic structural lemmas. -/

theorem toTasksFrom_length {Req Res : Type} (reqs : List Req) :
    ∀ s, (toTasksFrom s reqs : List (deliverTxTask Req Res)).length = reqs.length := by
  induction reqs with
  | nil => intro s; rfl
  | cons r rs ih => intro s; simp [toTasksFrom, ih]

theorem toTasks_length {Req Res : Type} (reqs : List Req) :
    (toTasks reqs : List (deliverTxTask Req Res)).length = reqs.length :=
  toTasksFrom_length reqs 0

theorem mem_positionsFrom_ge {n : Nat} :
    ∀ {s p : Nat}, p ∈ positionsFrom s n → s ≤ p := by
  induction n with
  | zero => intro s p h; simp [positionsFrom] at h
  | succ m ih =>
    intro s p h
    simp only [positionsFrom, List.mem_cons] at h
    rcases h with h | h
    · omega
    · have := ih h; omega

theorem positionsFrom_map_sub (n : Nat) :
    ∀ s, (positionsFrom (s + 1) n).map (fun p => p - 1) = positionsFrom s n := by
  induction n with
  | zero => intro s; rfl
  | succ m ih => intro s; simp [positionsFrom, ih (s + 1)]

theorem foldl_modifyAt_shift {α : Type} (g : α → α) :
    ∀ (ps : List Nat) (a : α) (ts : List α), (∀ p ∈ ps, 1 ≤ p) →
      ps.foldl (fun x i => modifyAt x i g) (a :: ts)
        = a :: (ps.map (fun p => p - 1)).foldl (fun x i => modifyAt x i g) ts := by
  intro ps
  induction ps with
  | nil => intro a ts _; rfl
  | cons p ps ih =>
    intro a ts hge
    obtain ⟨q, rfl⟩ : ∃ q, p = q + 1 := by
      have := hge p (List.mem_cons_self p ps); exact ⟨p - 1, by omega⟩
    have hrest : ∀ r ∈ ps, 1 ≤ r := fun r hr => hge r (List.mem_cons_of_mem _ hr)
    simp only [List.foldl_cons, List.map_cons, modifyAt, Nat.add_sub_cancel]
    exact ih a (modifyAt ts q g) hrest

theorem foldl_modifyAt_positions {α : Type} (g : α → α) :
    ∀ ts : List α,
      (positionsFrom 0 ts.length).foldl (fun x i => modifyAt x i g) ts = ts.map g := by
  intro ts
  induction ts with
  | nil => rfl
  | cons a ts ih =>
    have hge : ∀ p ∈ positionsFrom 1 ts.length, 1 ≤ p :=
      fun p hp => mem_positionsFrom_ge hp
    simp only [List.length_cons, positionsFrom, List.foldl_cons, modifyAt]
    rw [foldl_modifyAt_shift g _ (g a) ts hge, positionsFrom_map_sub, ih, List.map_cons]

theorem positionsFrom_length (n : Nat) : ∀ s, (positionsFrom s n).length = n := by
  induction n with
  | zero => intro s; rfl
  | succ m ih => intro s; simp [positionsFrom, ih]

/-- On a successful round, executeAll executes every task of the round. -/
theorem executeAll_success {Req Res E : Type} (workers : Int) (f : Req → Res)
    (ts : List (deliverTxTask Req Res)) :
    (executeAll none workers f ts (initialPositions ts.length)
        : Except E (List (deliverTxTask Req Res)))
      = Except.ok (ts.map (execTask f)) := by
  cases ts with
  | nil => simp [executeAll, initialPositions, positionsFrom]
  | cons a ts =>
    have hlen : (initialPositions (a :: ts).length).length = (a :: ts).length :=
      positionsFrom_length _ 0
    have hne : ¬ effectiveWorkers workers (a :: ts).length = 0 := by
      unfold effectiveWorkers
      split
      · simp
      · rename_i h
        omega
    simp only [executeAll, initialPositions]
    rw [positionsFrom_length _ 0, if_neg hne, foldl_modifyAt_positions]

/-! Characterization of the validation pass. -/

theorem validateAllAux_eq {Req Res : Type} (ts : List (deliverTxTask Req Res)) :
    ∀ s, validateAllAux s ts = (validatedView ts, abortedPositionsFrom s ts) := by
  induction ts with
  | nil => intro s; rfl
  | cons t ts ih =>
    intro s
    simp only [validateAllAux, validatedView, List.map_cons, abortedPositionsFrom, ih (s + 1)]
    split <;> rfl

theorem validateAll_eq {Req Res E : Type} (ts : List (deliverTxTask Req Res)) :
    (validateAll ts : Except E _)
      = Except.ok (validatedView ts, abortedPositionsFrom 0 ts) := by
  unfold validateAll
  rw [validateAllAux_eq ts 0]

theorem mem_abortedPositionsFrom_ge {Req Res : Type} :
    ∀ (ts : List (deliverTxTask Req Res)) (s p : Nat),
      p ∈ abortedPositionsFrom s ts → s ≤ p := by
  intro ts
  induction ts with
  | nil => intro s p h; simp [abortedPositionsFrom] at h
  | cons t ts ih =>
    intro s p h
    simp only [abortedPositionsFrom] at h
    by_cases ha : t.status = Status.aborted
    · rw [if_pos ha] at h
      rcases List.mem_cons.mp h with h | h
      · omega
      · have := ih (s + 1) p h; omega
    · rw [if_neg ha] at h
      have := ih (s + 1) p h; omega

theorem mem_abortedPositionsFrom_iff {Req Res : Type} :
    ∀ (ts : List (deliverTxTask Req Res)) (s i : Nat) (t : deliverTxTask Req Res),
      ts[i]? = some t →
      (s + i ∈ abortedPositionsFrom s ts ↔ t.status = Status.aborted) := by
  intro ts
  induction ts with
  | nil => intro s i t h; simp at h
  | cons u ts ih =>
    intro s i t h
    cases i with
    | zero =>
      simp only [List.getElem?_cons_zero, Option.some.injEq] at h
      simp only [abortedPositionsFrom, Nat.add_zero, ← h]
      by_cases ha : u.status = Status.aborted
      · simp [if_pos ha, ha]
      · rw [if_neg ha]
        constructor
        · intro hmem
          have := mem_abortedPositionsFrom_ge ts (s + 1) s hmem
          omega
        · intro hc; exact absurd hc ha
    | succ k =>
      simp only [List.getElem?_cons_succ] at h
      have hrec := ih (s + 1) k t h
      simp only [abortedPositionsFrom]
      have harith : s + (k + 1) = (s + 1) + k := by omega
      by_cases ha : u.status = Status.aborted
      · rw [if_pos ha]
        rw [List.mem_cons]
        constructor
        · intro hm
          rcases hm with hm | hm
          · omega
          · rw [harith] at hm; exact hrec.mp hm
        · intro hc
          right
          rw [harith]
          exact hrec.mpr hc
      · rw [if_neg ha, harith]
        exact hrec

theorem abortedPositionsFrom_executed {Req Res : Type} (f : Req → Res) :
    ∀ (ts : List (deliverTxTask Req Res)) (s : Nat),
      abortedPositionsFrom s (ts.map (execTask f)) = [] := by
  intro ts
  induction ts with
  | nil => intro s; rfl
  | cons t ts ih =>
    intro s
    simp only [List.map_cons, abortedPositionsFrom, execTask]
    rw [if_neg (by simp)]
    exact ih (s + 1)

/-! Shape of the task list after a clean first round. -/

theorem validatedView_incarnations {Req Res : Type} (ts : List (deliverTxTask Req Res)) :
    (validatedView ts).map (fun x => x.incarnation) = ts.map (fun x => x.incarnation) := by
  induction ts with
  | nil => rfl
  | cons t ts ih =>
    simp only [validatedView, List.map_cons] at ih ⊢
    rw [ih]
    split <;> rfl

theorem toTasksFrom_incarnations {Req Res : Type} (reqs : List Req) :
    ∀ s, ((toTasksFrom s reqs : List (deliverTxTask Req Res)).map fun x => x.incarnation)
      = reqs.map (fun _ => 0) := by
  induction reqs with
  | nil => intro s; rfl
  | cons r rs ih => intro s; simp only [toTasksFrom, List.map_cons, ih (s + 1)]

theorem map_execTask_incarnations {Req Res : Type} (f : Req → Res)
    (ts : List (deliverTxTask Req Res)) :
    ((ts.map (execTask f)).map fun x => x.incarnation) = ts.map fun x => x.incarnation := by
  induction ts with
  | nil => rfl
  | cons t ts ih => simp only [List.map_cons, execTask, ih]

theorem collectResponses_clean_round {Req Res : Type} (f : Req → Res) (reqs : List Req) :
    ∀ s, collectResponses
        (validatedView ((toTasksFrom s reqs : List (deliverTxTask Req Res)).map (execTask f)))
      = some (reqs.map f) := by
  induction reqs with
  | nil => intro s; rfl
  | cons r rs ih =>
    intro s
    have htail := ih (s + 1)
    simp only [toTasksFrom, List.map_cons, validatedView, execTask] at htail ⊢
    rw [if_neg (by simp)]
    simp only [collectResponses]
    rw [htail]

/-! Behaviour of the ProcessAll loop. -/

theorem processAllLoop_no_toExecute {Req Res E : Type} (workers : Int) (f : Req → Res)
    (cancels : Nat → Option E) (fuel round : Nat) (tasks : List (deliverTxTask Req Res)) :
    processAllLoop workers f cancels fuel round tasks [] = LoopResult.ok tasks := by
  cases fuel <;> simp [processAllLoop]

theorem executeAll_success_toTasks {Req Res E : Type} (workers : Int) (f : Req → Res)
    (reqs : List Req) :
    (executeAll none workers f (toTasks reqs) (initialPositions reqs.length)
        : Except E (List (deliverTxTask Req Res)))
      = Except.ok ((toTasks reqs).map (execTask f)) := by
  rw [show reqs.length = (toTasks reqs : List (deliverTxTask Req Res)).length from
        (toTasks_length reqs).symm]
  exact executeAll_success workers f (toTasks reqs)

/-- A round whose executeAll is not cancelled executes the whole batch,
validates every task, and flags nothing, so the loop exits right after. -/
theorem processAllLoop_clean_round {Req Res E : Type} (workers : Int) (f : Req → Res)
    (cancels : Nat → Option E) (fuel : Nat) (reqs : List Req) (h : cancels 0 = none) :
    processAllLoop workers f cancels (fuel + 1) 0 (toTasks reqs)
        (initialPositions reqs.length)
      = LoopResult.ok (validatedView ((toTasks reqs).map (execTask f))) := by
  cases reqs with
  | nil =>
    simp [processAllLoop, toTasks, toTasksFrom, initialPositions, positionsFrom,
      validatedView]
  | cons r rs =>
    have hemp : (initialPositions (r :: rs).length).isEmpty = false := rfl
    simp only [processAllLoop, hemp, Bool.false_eq_true, if_false, h,
      executeAll_success_toTasks, validateAll_eq, abortedPositionsFrom_executed,
      retryFlagged, List.foldl_nil, processAllLoop_no_toExecute]

theorem collectResponses_of_clean_round {Req Res : Type} (f : Req → Res) (reqs : List Req) :
    collectResponses (validatedView ((toTasks reqs : List (deliverTxTask Req Res)).map
        (execTask f)))
      = some (reqs.map f) :=
  collectResponses_clean_round f reqs 0

theorem setValidated_eq_self {Req Res : Type} (t : deliverTxTask Req Res)
    (h : t.status = Status.validated) : { t with status := Status.validated } = t := by
  cases t
  simp_all

/-! The claims. -/

/-- Claim C1: for every batch on which execution is pure and no round is
cancelled (and no task is ever aborted, which the wired code guarantees),
ProcessAll returns the response list of strict sequential execution: one
response per request, in input order, each equal to the execution function
applied to the corresponding request. -/
theorem C1_processAll_equals_sequential {Req Res E : Type} (workers : Int) (f : Req → Res)
    (cancels : Nat → Option E) (fuel : Nat) (reqs : List Req)
    (hfuel : 1 ≤ fuel) (hcancel : cancels 0 = none) :
    ProcessAll workers f cancels fuel reqs = SchedResult.ok (reqs.map f) := by
  obtain ⟨k, rfl⟩ : ∃ k, fuel = k + 1 := ⟨fuel - 1, by omega⟩
  simp only [ProcessAll, toTasks_length,
    processAllLoop_clean_round workers f cancels k reqs hcancel,
    collectResponses_of_clean_round]

theorem C1_processAll_equals_sequential_witness :
    ProcessAll 2 (fun n => n * 2) (fun _ => (none : Option Nat)) 1 [3, 4, 5]
      = SchedResult.ok [6, 8, 10] :=
  C1_processAll_equals_sequential 2 (fun n => n * 2) (fun _ => none) 1 [3, 4, 5]
    (by decide) rfl

/-- Claim C2 (code bug, evaluated at the failing input): the retry loop of
ProcessAll increments the incarnation and resets the status to pending but
does NOT discard the stale response (the source only has a TODO for the
reset), so a task flagged for re-execution that carried a response still
carries it while pending, contradicting the claimed absence of the response
and the claimed response-iff-executed-or-validated invariant. -/
theorem C2_retry_keeps_stale_response :
    retryFlagged [{ status := Status.aborted, index := 0, incarnation := 0,
                    request := (0 : Nat), response := some (7 : Nat) }] [0]
      = [{ status := Status.pending, index := 0, incarnation := 1,
           request := 0, response := some 7 }] := by
  rfl

/-- Claim C3: validateAll never returns an error; its re-execution list is
exactly the positions of the tasks that were aborted on entry, in input
order; every non-aborted task is validated afterward and every aborted task
is returned unchanged. -/
theorem C3_validateAll_characterization {Req Res E : Type}
    (ts : List (deliverTxTask Req Res)) (i : Nat) (t : deliverTxTask Req Res)
    (hget : ts[i]? = some t) :
    (validateAll ts : Except E _)
        = Except.ok (validatedView ts, abortedPositionsFrom 0 ts) ∧
    (validatedView ts)[i]?
        = some (if t.status = Status.aborted then t
                else { t with status := Status.validated }) ∧
    (i ∈ abortedPositionsFrom 0 ts ↔ t.status = Status.aborted) := by
  refine ⟨validateAll_eq ts, ?_, ?_⟩
  · simp only [validatedView, List.getElem?_map, hget, Option.map_some']
  · have h3 := mem_abortedPositionsFrom_iff ts 0 i t hget
    simpa using h3

theorem C3_validateAll_characterization_witness :
    (validateAll [{ status := Status.aborted, index := 0, incarnation := 1,
                    request := (10 : Nat), response := (none : Option Nat) }]
        : Except Nat _)
        = Except.ok ([{ status := Status.aborted, index := 0, incarnation := 1,
                        request := (10 : Nat), response := (none : Option Nat) }], [0]) ∧
    (validatedView [{ status := Status.aborted, index := 0, incarnation := 1,
                      request := (10 : Nat), response := (none : Option Nat) }])[0]?
        = some { status := Status.aborted, index := 0, incarnation := 1,
                 request := (10 : Nat), response := (none : Option Nat) } ∧
    (0 ∈ abortedPositionsFrom 0
          [{ status := Status.aborted, index := 0, incarnation := 1,
             request := (10 : Nat), response := (none : Option Nat) }]
      ↔ Status.aborted = Status.aborted) :=
  C3_validateAll_characterization
    [{ status := Status.aborted, index := 0, incarnation := 1,
       request := (10 : Nat), response := (none : Option Nat) }] 0
    { status := Status.aborted, index := 0, incarnation := 1,
      request := (10 : Nat), response := (none : Option Nat) } rfl

/-- Claim C4: whenever the execution phase of the first round returns an
error (the cancellation outcome of round 0 is an error), ProcessAll returns
that error and no response list at all. -/
theorem C4_error_aborts_whole_batch {Req Res E : Type} (workers : Int) (f : Req → Res)
    (cancels : Nat → Option E) (fuel : Nat) (reqs : List Req) (e : E)
    (hfuel : 1 ≤ fuel) (hreqs : reqs ≠ []) (hcancel : cancels 0 = some e) :
    ProcessAll workers f cancels fuel reqs = SchedResult.error e := by
  obtain ⟨k, rfl⟩ : ∃ k, fuel = k + 1 := ⟨fuel - 1, by omega⟩
  cases reqs with
  | nil => exact absurd rfl hreqs
  | cons r rs =>
    have hemp : (initialPositions (r :: rs).length).isEmpty = false := rfl
    simp only [ProcessAll, toTasks_length, processAllLoop, hemp, Bool.false_eq_true,
      if_false, hcancel, executeAll]

theorem C4_error_aborts_whole_batch_witness :
    ProcessAll 1 (fun n : Nat => n) (fun _ => some 9) 1 [5] = SchedResult.error 9 :=
  C4_error_aborts_whole_batch 1 (fun n : Nat => n) (fun _ => some 9) 1 [5] 9
    (by decide) (by simp) rfl

/-- Claim C5: executeAll configured with any worker count at most 0 behaves
identically - same task states and same return value - to executeAll
configured with a worker count equal to the number of tasks in the round. -/
theorem C5_nonpositive_workers_means_batch_size {Req Res E : Type} (cancel : Option E)
    (workers : Int) (f : Req → Res) (tasks : List (deliverTxTask Req Res))
    (toExecute : List Nat) (h : workers ≤ 0) :
    executeAll cancel workers f tasks toExecute
      = executeAll cancel (toExecute.length : Int) f tasks toExecute := by
  cases cancel with
  | some e => rfl
  | none =>
    have heff : effectiveWorkers workers toExecute.length
        = effectiveWorkers (toExecute.length : Int) toExecute.length := by
      unfold effectiveWorkers
      split <;> split <;> omega
    simp only [executeAll, heff]

theorem C5_nonpositive_workers_means_batch_size_witness :
    executeAll (none : Option Nat) (-2) (fun n : Nat => n + 1)
        [{ status := Status.pending, index := 0, incarnation := 0,
           request := (3 : Nat), response := (none : Option Nat) }] [0]
      = executeAll none 1 (fun n : Nat => n + 1)
        [{ status := Status.pending, index := 0, incarnation := 0,
           request := (3 : Nat), response := (none : Option Nat) }] [0] :=
  C5_nonpositive_workers_means_batch_size none (-2) (fun n : Nat => n + 1)
    [{ status := Status.pending, index := 0, incarnation := 0,
       request := (3 : Nat), response := (none : Option Nat) }] [0] (by decide)

/-- Claim C6: every task built from a request starts at incarnation 0 (so
the first execution of every task happens at incarnation 0), execution and
validation never change an incarnation, and the retry step is the only
incarnation change and increments it by exactly 1. -/
theorem C6_incarnation_discipline {Req Res E : Type} (f : Req → Res) (reqs : List Req)
    (t u : deliverTxTask Req Res) (ts us : List (deliverTxTask Req Res)) (fl : List Nat)
    (hv : (validateAll ts : Except E _) = Except.ok (us, fl)) :
    ((toTasks reqs : List (deliverTxTask Req Res)).map fun x => x.incarnation)
        = reqs.map (fun _ => 0) ∧
    (execTask f t).incarnation = t.incarnation ∧
    (us.map fun x => x.incarnation) = ts.map (fun x => x.incarnation) ∧
    (retryStep u).incarnation = u.incarnation + 1 := by
  obtain ⟨h1, h2⟩ : validatedView ts = us ∧ abortedPositionsFrom 0 ts = fl := by
    rw [validateAll_eq] at hv
    simpa using hv
  refine ⟨toTasksFrom_incarnations reqs 0, rfl, ?_, rfl⟩
  rw [← h1, validatedView_incarnations]

theorem C6_incarnation_discipline_witness :
    ((toTasks [5] : List (deliverTxTask Nat Nat)).map fun x => x.incarnation)
        = [5].map (fun _ => 0) ∧
    (execTask (fun n : Nat => n + 1)
        { status := Status.pending, index := 0, incarnation := 3,
          request := (1 : Nat), response := (none : Option Nat) }).incarnation
      = ({ status := Status.pending, index := 0, incarnation := 3,
           request := (1 : Nat), response := (none : Option Nat) }
          : deliverTxTask Nat Nat).incarnation ∧
    (([{ status := Status.validated, index := 0, incarnation := 4,
         request := (1 : Nat), response := some (2 : Nat) }]
        : List (deliverTxTask Nat Nat)).map fun x => x.incarnation)
      = ([{ status := Status.executed, index := 0, incarnation := 4,
            request := (1 : Nat), response := some (2 : Nat) }]
          : List (deliverTxTask Nat Nat)).map (fun x => x.incarnation) ∧
    (retryStep { status := Status.aborted, index := 0, incarnation := 6,
                 request := (1 : Nat), response := (none : Option Nat) }).incarnation
      = ({ status := Status.aborted, index := 0, incarnation := 6,
           request := (1 : Nat), response := (none : Option Nat) }
          : deliverTxTask Nat Nat).incarnation + 1 :=
  @C6_incarnation_discipline Nat Nat Nat (fun n : Nat => n + 1) [5]
    { status := Status.pending, index := 0, incarnation := 3,
      request := (1 : Nat), response := (none : Option Nat) }
    { status := Status.aborted, index := 0, incarnation := 6,
      request := (1 : Nat), response := (none : Option Nat) }
    [{ status := Status.executed, index := 0, incarnation := 4,
       request := (1 : Nat), response := some (2 : Nat) }]
    [{ status := Status.validated, index := 0, incarnation := 4,
       request := (1 : Nat), response := some (2 : Nat) }] [] rfl

/-- Claim C7: validation is idempotent on validated tasks: a task already
validated on entry is left validated (indeed unchanged) by validateAll and
is not put into the returned re-execution list. -/
theorem C7_validation_idempotent_on_validated {Req Res E : Type}
    (ts us : List (deliverTxTask Req Res)) (fl : List Nat) (i : Nat)
    (t : deliverTxTask Req Res)
    (hv : (validateAll ts : Except E _) = Except.ok (us, fl))
    (hget : ts[i]? = some t) (hstat : t.status = Status.validated) :
    us[i]? = some t ∧ i ∉ fl := by
  obtain ⟨h1, h2⟩ : validatedView ts = us ∧ abortedPositionsFrom 0 ts = fl := by
    rw [validateAll_eq] at hv
    simpa using hv
  have hne : ¬ t.status = Status.aborted := by rw [hstat]; simp
  constructor
  · rw [← h1]
    simp only [validatedView, List.getElem?_map, hget, Option.map_some']
    rw [if_neg hne, setValidated_eq_self t hstat]
  · rw [← h2]
    intro hmem
    have := (mem_abortedPositionsFrom_iff ts 0 i t hget).mp (by simpa using hmem)
    rw [hstat] at this
    simp at this

theorem C7_validation_idempotent_on_validated_witness :
    ([{ status := Status.validated, index := 0, incarnation := 1,
        request := (4 : Nat), response := some (6 : Nat) }]
      : List (deliverTxTask Nat Nat))[0]?
        = some { status := Status.validated, index := 0, incarnation := 1,
                 request := (4 : Nat), response := some (6 : Nat) } ∧
    0 ∉ ([] : List Nat) :=
  @C7_validation_idempotent_on_validated Nat Nat Nat
    [{ status := Status.validated, index := 0, incarnation := 1,
       request := (4 : Nat), response := some (6 : Nat) }]
    [{ status := Status.validated, index := 0, incarnation := 1,
       request := (4 : Nat), response := some (6 : Nat) }] [] 0
    { status := Status.validated, index := 0, incarnation := 1,
      request := (4 : Nat), response := some (6 : Nat) } rfl rfl rfl

/-- Claim C8: on a batch whose first round is not cancelled, the loop of
ProcessAll terminates after exactly one execute-validate round (fuel 1
suffices): execution never aborts a task, so validation flags nothing for
re-execution and every final incarnation is 0. -/
theorem C8_terminates_in_one_round {Req Res E : Type} (workers : Int) (f : Req → Res)
    (cancels : Nat → Option E) (reqs : List Req) (hcancel : cancels 0 = none) :
    processAllLoop workers f cancels 1 0 (toTasks reqs) (initialPositions reqs.length)
        = LoopResult.ok (validatedView ((toTasks reqs).map (execTask f))) ∧
    abortedPositionsFrom 0 ((toTasks reqs).map (execTask f)) = [] ∧
    ((validatedView ((toTasks reqs).map (execTask f))).map fun x => x.incarnation)
        = reqs.map (fun _ => 0) := by
  refine ⟨processAllLoop_clean_round workers f cancels 0 reqs hcancel,
    abortedPositionsFrom_executed f (toTasks reqs) 0, ?_⟩
  rw [validatedView_incarnations, map_execTask_incarnations]
  exact toTasksFrom_incarnations reqs 0

theorem C8_terminates_in_one_round_witness :
    processAllLoop 3 (fun n : Nat => n * n) (fun _ => (none : Option Nat)) 1 0
        (toTasks [2]) (initialPositions (List.length [2]))
        = LoopResult.ok (validatedView ((toTasks [2]).map (execTask fun n : Nat => n * n))) ∧
    abortedPositionsFrom 0 ((toTasks [2]).map (execTask fun n : Nat => n * n)) = [] ∧
    ((validatedView ((toTasks [2]).map (execTask fun n : Nat => n * n))).map
        fun x => x.incarnation)
        = [2].map (fun _ => 0) :=
  C8_terminates_in_one_round 3 (fun n : Nat => n * n) (fun _ => none) [2] rfl

/-- Claim C9: ProcessAll never hits the nil-response dereference inside
collectResponses: whenever the loop hands a task list to collectResponses,
every task in it carries a response, so the crash outcome is unreachable for
every batch, worker count, fuel budget and cancellation pattern. -/
theorem C9_collect_never_dereferences_nil {Req Res E : Type} (workers : Int)
    (f : Req → Res) (cancels : Nat → Option E) (fuel : Nat) (reqs : List Req) :
    (ProcessAll workers f cancels fuel reqs).isCrash = false := by
  cases fuel with
  | zero =>
    cases reqs with
    | nil => rfl
    | cons r rs => rfl
  | succ k =>
    cases hcan : cancels 0 with
    | none =>
      simp only [ProcessAll, toTasks_length,
        processAllLoop_clean_round workers f cancels k reqs hcan,
        collectResponses_of_clean_round]
      rfl
    | some e =>
      cases reqs with
      | nil => rfl
      | cons r rs =>
        have hemp : (initialPositions (r :: rs).length).isEmpty = false := rfl
        simp only [ProcessAll, toTasks_length, processAllLoop, hemp, Bool.false_eq_true,
          if_false, hcan, executeAll]
        rfl

/-- Claim C10: on the empty batch ProcessAll returns an empty response list
and no error, for every fuel budget, worker count and cancellation pattern,
and uniformly in the execution function - the loop body never runs, so the
execution function is never invoked. -/
theorem C10_empty_batch {Req Res E : Type} (workers : Int) (f : Req → Res)
    (cancels : Nat → Option E) (fuel : Nat) :
    ProcessAll workers f cancels fuel ([] : List Req)
      = SchedResult.ok ([] : List Res) := by
  cases fuel with
  | zero => rfl
  | succ k => rfl

end SeiScheduler
